import Mathlib

/-!
Shallow embedding of `src/data_processor.py` (RideGen Analytics Pipeline).

Modelling conventions:
* A pandas cell as read by `read_csv` is a `RawVal`: a null (`empty`), a
  boolean, a finite numeral, or free text.  `pd.to_numeric(errors='coerce')`
  and `.astype(bool)` are embedded as total functions on `RawVal`.
* The `timestamp` column is carried as `Option DateTime`: the combined effect
  of `read_csv(parse_dates=['timestamp'])` followed by
  `pd.to_datetime(errors='coerce')` is that each value is independently either
  a parsed datetime or missing (`NaT`); the text-to-datetime parser itself is
  an external collaborator, so its per-row output is the model's input.
  `read_csv` raises when a `parse_dates` column is absent from the header;
  this is modelled by the `parseDatesMissing` error.
* A `DateTime` carries a day index (days since a Monday epoch), an hour and
  nothing else; weekday name and month are derived functions of the day index
  (`dt.dt.day_name()`, `dt.dt.month`), with the month map a fixed concrete
  function of the index — no claim depends on the actual civil calendar map,
  only on the derivations being deterministic and weekday names ranging over
  the seven English names.
* Floats are embedded as `FloatVal`: NaN, ±infinity, or a finite rational.
  Ratio columns store `FloatVal`; mean/sum aggregates over finite inputs are
  `Option ℚ` / `ℚ` (NaN of an empty mean is `none`).
* `groupby(..., dropna=False)` groups by key with missing keys kept; group
  keys are enumerated here in first-appearance order.  Pandas emits groups in
  key-sorted order, but every transform re-sorts its output and no verified
  property depends on the pre-sort order, only on the grouping itself.
* `sort_values` is embedded as a stable insertion sort (`sortBy`) by the
  boolean key order, with missing keys ordered last (`na_position='last'`).
-/

namespace RideGen

/-- Cell value of a tabular column as produced by `read_csv` type inference:
null, boolean, finite numeral, or free text. -/
inductive RawVal
  | empty
  | boolv (b : Bool)
  | num (q : ℚ)
  | text (s : String)
deriving DecidableEq

/-- Parsed timestamp: day index since a Monday epoch plus hour of day.
Derived calendar fields are functions of these. -/
structure DateTime where
  dateIdx : ℤ
  hour : ℕ
deriving DecidableEq

/-- Weekday number of a day index: 0 = Monday … 6 = Sunday (the epoch is a
Monday, so this is the index modulo 7). -/
def dowOf (d : ℤ) : ℕ := (d % 7).toNat

/-- English weekday name, as produced by `dt.dt.day_name()`. -/
def dayName (n : ℕ) : String :=
  if n = 0 then "Monday"
  else if n = 1 then "Tuesday"
  else if n = 2 then "Wednesday"
  else if n = 3 then "Thursday"
  else if n = 4 then "Friday"
  else if n = 5 then "Saturday"
  else "Sunday"

/-- Month number (1–12) of a day index; a fixed deterministic function of the
index standing in for the civil calendar month map. -/
def monthOf (d : ℤ) : ℕ := ((d / 30) % 12).toNat + 1

/-- Raw row of the source: one cell per Schema Contract column.  The
`timestamp` cell already holds the result of datetime parsing (see module
docstring).  Cells of columns absent from the csv header are irrelevant:
loading fails before reading any cell in that case. -/
structure RawRow where
  ride_id : RawVal
  timestamp : Option DateTime
  pickup_zone : Option String
  dropoff_zone : Option String
  vehicle_type : Option String
  distance_km : RawVal
  fare : RawVal
  wait_time_minutes : RawVal
  completed : RawVal
  surge_multiplier : RawVal
deriving DecidableEq

/-- Tabular record source: the header names the columns present; rows carry
the cell values. -/
structure Csv where
  header : List String
  rows : List RawRow
deriving DecidableEq

/-- The Schema Contract: the fixed ordered list of required column names
(`REQUIRED.columns` in the source). -/
def REQUIRED : List String :=
  ["ride_id", "timestamp", "pickup_zone", "dropoff_zone", "vehicle_type",
   "distance_km", "fare", "wait_time_minutes", "completed", "surge_multiplier"]

/-- Embedding of `pd.to_numeric(errors='coerce')` on a cell: numerals pass
through, booleans become 0/1, nulls and non-numeric text become missing. -/
def toNumeric : RawVal → Option ℚ
  | .num q => some q
  | .boolv b => some (if b then 1 else 0)
  | .empty => none
  | .text _ => none

/-- Embedding of `.astype(bool)` on a cell: Python truthiness.  A null is
`bool(nan) = True`, a numeral is nonzero-ness, text is non-emptiness. -/
def astypeBool : RawVal → Bool
  | .empty => true
  | .boolv b => b
  | .num q => decide (q ≠ 0)
  | .text s => decide (s ≠ "")

/-- Enriched record: coerced source fields plus the four derived calendar
fields (lines 53–64 of the source). -/
structure Record where
  ride_id : RawVal
  timestamp : Option DateTime
  pickup_zone : Option String
  dropoff_zone : Option String
  vehicle_type : Option String
  distance_km : Option ℚ
  fare : Option ℚ
  wait_time_minutes : Option ℚ
  completed : Bool
  surge_multiplier : Option ℚ
  date : Option ℤ
  hour : Option ℕ
  day_of_week : Option String
  month : Option ℕ
deriving DecidableEq

/-- Coercion and derivation applied to one row by `load_data`. -/
def enrich (r : RawRow) : Record :=
  { ride_id := r.ride_id
    timestamp := r.timestamp
    pickup_zone := r.pickup_zone
    dropoff_zone := r.dropoff_zone
    vehicle_type := r.vehicle_type
    distance_km := toNumeric r.distance_km
    fare := toNumeric r.fare
    wait_time_minutes := toNumeric r.wait_time_minutes
    completed := astypeBool r.completed
    surge_multiplier := toNumeric r.surge_multiplier
    date := r.timestamp.map (·.dateIdx)
    hour := r.timestamp.map (·.hour)
    day_of_week := r.timestamp.map (fun t => dayName (dowOf t.dateIdx))
    month := r.timestamp.map (fun t => monthOf t.dateIdx) }

/-- Failure modes of `load_data`: `read_csv` raising because a `parse_dates`
column is absent, and the explicit required-columns validation (the
`SchemaValidationError` of the spec, a `ValueError` naming the missing
columns in the source). -/
inductive LoadError
  | parseDatesMissing (col : String)
  | schemaValidation (missingCols : List String)
deriving DecidableEq

/-- Embedding of the body of `RideDataProcessor.load_data` (lines 45–68):
`read_csv` with `parse_dates=['timestamp']` (raises when `timestamp` is
absent), then the required-columns validation, then per-column coercion and
derivation. -/
def loadResult (csv : Csv) : Except LoadError (List Record) :=
  if "timestamp" ∈ csv.header then
    match REQUIRED.filter (fun c => ¬ c ∈ csv.header) with
    | [] => .ok (csv.rows.map enrich)
    | missingCols => .error (.schemaValidation missingCols)
  else .error (.parseDatesMissing "timestamp")

/-- IEEE-style float value for ratio columns: NaN (the pandas missing value),
positive or negative infinity, or a finite rational. -/
inductive FloatVal
  | nan
  | inf
  | ninf
  | fin (q : ℚ)
deriving DecidableEq

/-- Float division of two finite values, with the IEEE results on a zero
denominator: `0/0 = NaN`, `±x/0 = ±∞`. -/
def fdiv (n d : ℚ) : FloatVal :=
  if d = 0 then (if n = 0 then .nan else if 0 < n then .inf else .ninf)
  else .fin (n / d)

/-- Embedding of `.replace([np.inf, -np.inf], np.nan)`. -/
def replaceInfNan : FloatVal → FloatVal
  | .inf => .nan
  | .ninf => .nan
  | v => v

/-- Pandas column mean: missing inputs are skipped; the mean of an empty or
all-missing column is NaN (here `none`). -/
def meanOpt (xs : List (Option ℚ)) : Option ℚ :=
  let vs := xs.filterMap id
  if vs.length = 0 then none else some (vs.sum / (vs.length : ℚ))

/-- Pandas column sum: missing inputs are skipped; an empty or all-missing
column sums to 0 (`min_count=0`). -/
def sumOpt (xs : List (Option ℚ)) : ℚ := (xs.filterMap id).sum

/-- Boolean order of a linear order. -/
def ble {α : Type} [LinearOrder α] (a b : α) : Bool := decide (a ≤ b)

/-- Code-point lexicographic order on character lists, the order pandas uses
for plain string sort keys. -/
def charsLe : List Char → List Char → Bool
  | [], _ => true
  | _ :: _, [] => false
  | a :: as, b :: bs =>
    if a.toNat < b.toNat then true
    else if b.toNat < a.toNat then false
    else charsLe as bs

/-- Lexicographic order on strings. -/
def strLe (a b : String) : Bool := charsLe a.data b.data

/-- Insertion of an element into a sorted list, before the first element it
compares `le` to. -/
def insertSorted {α : Type} (le : α → α → Bool) (x : α) : List α → List α
  | [] => [x]
  | y :: ys => if le x y then x :: y :: ys else y :: insertSorted le x ys

/-- Stable insertion sort: the embedding of `sort_values` (pandas `lexsort`
is likewise a stable sort by the given keys). -/
def sortBy {α : Type} (le : α → α → Bool) : List α → List α
  | [] => []
  | x :: xs => insertSorted le x (sortBy le xs)

/-- Lift of a boolean order to `Option`, ordering missing values last
(`na_position='last'` of `sort_values`). -/
def optLe {α : Type} (le : α → α → Bool) : Option α → Option α → Bool
  | none, none => true
  | none, some _ => false
  | some _, none => true
  | some a, some b => le a b

/-- Lexicographic combination of two boolean orders, used for multi-key
`sort_values`. -/
def lexLe {α β : Type} [DecidableEq α] (leA : α → α → Bool) (leB : β → β → Bool)
    (p q : α × β) : Bool :=
  if p.1 = q.1 then leB p.2 q.2 else leA p.1 q.1

/-- Distinct values of a list in first-appearance order, skipping values
already in `seen`. -/
def uniqueKeysAux {κ : Type} [DecidableEq κ] (seen : List κ) : List κ → List κ
  | [] => []
  | k :: ks =>
    if k ∈ seen then uniqueKeysAux seen ks else k :: uniqueKeysAux (k :: seen) ks

/-- Distinct group keys of a column, in first-appearance order (see the
module docstring on group enumeration order). -/
def uniqueKeys {κ : Type} [DecidableEq κ] (l : List κ) : List κ := uniqueKeysAux [] l

/-- Rows of the group with key `k`: a `groupby(..., dropna=False)` group
(missing keys form their own group). -/
def groupRows {κ : Type} [DecidableEq κ] (df : List Record) (key : Record → κ)
    (k : κ) : List Record :=
  df.filter (fun r => key r = k)

/-- Pandas `('ride_id', 'count')` aggregate: the number of non-null values;
a `ride_id` cell is null exactly when it is empty. -/
def countRideId (g : List Record) : ℕ :=
  (g.filter (fun r => r.ride_id ≠ RawVal.empty)).length

/-- Pandas `('completed', 'sum')` aggregate over the boolean column: the
number of `True` values. -/
def countCompleted (g : List Record) : ℕ := (g.filter (fun r => r.completed)).length

/-- Grouping key of `aggregate_by_hour`: `['date', 'hour']`. -/
def hourlyKey (r : Record) : Option ℤ × Option ℕ := (r.date, r.hour)

/-- Output row of `aggregate_by_hour`. -/
structure HourlyRow where
  date : Option ℤ
  hour : Option ℕ
  total_rides : ℕ
  completed_rides : ℕ
  avg_fare : Option ℚ
  total_revenue : ℚ
  avg_distance : Option ℚ
  avg_wait_time : Option ℚ
  avg_surge : Option ℚ
  completion_rate : FloatVal
  day_of_week : Option String
  month : Option ℕ
deriving DecidableEq

/-- Aggregated row of `aggregate_by_hour` for group key `k`: the seven named
aggregates, the `completion_rate` ratio with its
`.replace([np.inf, -np.inf], np.nan)`, and the BI-helper `day_of_week` and
`month` re-derived from the group's date (lines 98–112). -/
def hourlyRowOf (df : List Record) (k : Option ℤ × Option ℕ) : HourlyRow :=
  let g := groupRows df hourlyKey k
  { date := k.1
    hour := k.2
    total_rides := countRideId g
    completed_rides := countCompleted g
    avg_fare := meanOpt (g.map (·.fare))
    total_revenue := sumOpt (g.map (·.fare))
    avg_distance := meanOpt (g.map (·.distance_km))
    avg_wait_time := meanOpt (g.map (·.wait_time_minutes))
    avg_surge := meanOpt (g.map (·.surge_multiplier))
    completion_rate := replaceInfNan (fdiv (countCompleted g) (countRideId g))
    day_of_week := k.1.map (fun d => dayName (dowOf d))
    month := k.1.map monthOf }

/-- Sort key order of `sort_values(['date', 'hour'])`. -/
def hourlyLe (a b : HourlyRow) : Bool :=
  lexLe (optLe ble) (optLe ble) (a.date, a.hour) (b.date, b.hour)

/-- Embedding of `aggregate_by_hour` applied to a loaded dataset
(lines 92–113). -/
def hourlyOf (df : List Record) : List HourlyRow :=
  ((uniqueKeys (df.map hourlyKey)).map (hourlyRowOf df)) |> sortBy hourlyLe

/-- Grouping key of `aggregate_by_zone`: `['pickup_zone']`. -/
def zonalKey (r : Record) : Option String := r.pickup_zone

/-- Output row of `aggregate_by_zone`. -/
structure ZonalRow where
  pickup_zone : Option String
  total_rides : ℕ
  completed_rides : ℕ
  avg_fare : Option ℚ
  total_revenue : ℚ
  avg_distance : Option ℚ
  avg_wait_time : Option ℚ
  avg_surge : Option ℚ
  completion_rate : FloatVal
  ride_share : FloatVal
deriving DecidableEq

/-- Grand total of the `total_rides` column of the zonal table:
`out['total_rides'].sum()` (line 132), the `ride_share` denominator. -/
def zonalGrand (df : List Record) : ℕ :=
  ((uniqueKeys (df.map zonalKey)).map
    (fun k => countRideId (groupRows df zonalKey k))).sum

/-- Aggregated row of `aggregate_by_zone` for group key `k`, with
`completion_rate` (inf-normalized) and `ride_share` (raw division by the
column grand total, no inf-normalization in the source) (lines 121–132). -/
def zonalRowOf (df : List Record) (k : Option String) : ZonalRow :=
  let g := groupRows df zonalKey k
  { pickup_zone := k
    total_rides := countRideId g
    completed_rides := countCompleted g
    avg_fare := meanOpt (g.map (·.fare))
    total_revenue := sumOpt (g.map (·.fare))
    avg_distance := meanOpt (g.map (·.distance_km))
    avg_wait_time := meanOpt (g.map (·.wait_time_minutes))
    avg_surge := meanOpt (g.map (·.surge_multiplier))
    completion_rate := replaceInfNan (fdiv (countCompleted g) (countRideId g))
    ride_share := fdiv (countRideId g) (zonalGrand df) }

/-- Sort key order of `sort_values("total_rides", ascending=False)`. -/
def zonalLe (a b : ZonalRow) : Bool := ble b.total_rides a.total_rides

/-- Embedding of `aggregate_by_zone` applied to a loaded dataset
(lines 115–133). -/
def zonalOf (df : List Record) : List ZonalRow :=
  ((uniqueKeys (df.map zonalKey)).map (zonalRowOf df)) |> sortBy zonalLe

/-- The fixed calendar order `day_order` of `peak_hours_analysis`
(line 149). -/
def day_order : List String :=
  ["Monday", "Tuesday", "Wednesday", "Thursday", "Friday", "Saturday", "Sunday"]

/-- Embedding of the `pd.Categorical(..., categories=day_order)` conversion:
a value outside the seven categories becomes missing (line 150). -/
def toCat : Option String → Option String
  | none => none
  | some s => if s ∈ day_order then some s else none

/-- Sort position of a categorical `day_of_week` cell: its position in the
Monday…Sunday category list, with missing ordered last. -/
def sortIdx : Option String → ℕ
  | none => 7
  | some s => day_order.indexOf s

/-- Numeric stand-in for the `hour` sort key.  In the peak-hours table a
missing hour occurs only on the missing-day row (both derive from the same
unparseable timestamp), so its stand-in value is never compared against a
present hour within one day group. -/
def hourVal : Option ℕ → ℕ
  | none => 0
  | some h => h

/-- Grouping key of `peak_hours_analysis`: `['day_of_week', 'hour']`. -/
def peakKey (r : Record) : Option String × Option ℕ := (r.day_of_week, r.hour)

/-- Output row of `peak_hours_analysis`. -/
structure PeakRow where
  day_of_week : Option String
  hour : Option ℕ
  ride_count : ℕ
  avg_wait_time : Option ℚ
  avg_surge : Option ℚ
  share_of_week : FloatVal
deriving DecidableEq

/-- Grand total of the `ride_count` column of the peak-hours table:
`out['ride_count'].sum()` (line 146), the `share_of_week` denominator. -/
def peakGrand (df : List Record) : ℕ :=
  ((uniqueKeys (df.map peakKey)).map
    (fun k => countRideId (groupRows df peakKey k))).sum

/-- Aggregated row of `peak_hours_analysis` for group key `k`, with
`share_of_week` (raw division by the column grand total, no
inf-normalization in the source) and the categorical `day_of_week`
conversion applied before sorting (lines 140–150). -/
def peakRowOf (df : List Record) (k : Option String × Option ℕ) : PeakRow :=
  let g := groupRows df peakKey k
  { day_of_week := toCat k.1
    hour := k.2
    ride_count := countRideId g
    avg_wait_time := meanOpt (g.map (·.wait_time_minutes))
    avg_surge := meanOpt (g.map (·.surge_multiplier))
    share_of_week := fdiv (countRideId g) (peakGrand df) }

/-- Sort key order of `sort_values(['day_of_week', 'hour'])` over the
categorical day column: calendar position, then hour, missing last. -/
def peakLe (a b : PeakRow) : Bool :=
  lexLe ble ble (sortIdx a.day_of_week, hourVal a.hour)
    (sortIdx b.day_of_week, hourVal b.hour)

/-- Embedding of `peak_hours_analysis` applied to a loaded dataset
(lines 135–151). -/
def peakOf (df : List Record) : List PeakRow :=
  ((uniqueKeys (df.map peakKey)).map (peakRowOf df)) |> sortBy peakLe

/-- Grouping key of `vehicle_type_analysis`:
`['pickup_zone', 'vehicle_type']`. -/
def vehicleKey (r : Record) : Option String × Option String :=
  (r.pickup_zone, r.vehicle_type)

/-- Output row of `vehicle_type_analysis`. -/
structure VehicleRow where
  pickup_zone : Option String
  vehicle_type : Option String
  total_rides : ℕ
  completed_rides : ℕ
  avg_fare : Option ℚ
  total_revenue : ℚ
  avg_wait_time : Option ℚ
  avg_surge : Option ℚ
  completion_rate : FloatVal
  zone_vehicle_share : FloatVal
deriving DecidableEq

/-- Within-zone total of the `total_rides` column of the vehicle table: the
`s.sum()` denominator of the `transform` on line 172, summing the rows whose
`pickup_zone` equals `z`. -/
def zoneDen (df : List Record) (z : Option String) : ℕ :=
  (((uniqueKeys (df.map vehicleKey)).filter (fun k => k.1 = z)).map
    (fun k => countRideId (groupRows df vehicleKey k))).sum

/-- Aggregated row of `vehicle_type_analysis` for group key `k`.  The
`zone_vehicle_share` comes from `out.groupby('pickup_zone')[...].transform`
(line 172) whose inner groupby uses the default `dropna=True`: rows whose
`pickup_zone` is missing are excluded from every group, so their transform
result is missing (NaN). -/
def vehicleRowOf (df : List Record) (k : Option String × Option String) :
    VehicleRow :=
  let g := groupRows df vehicleKey k
  { pickup_zone := k.1
    vehicle_type := k.2
    total_rides := countRideId g
    completed_rides := countCompleted g
    avg_fare := meanOpt (g.map (·.fare))
    total_revenue := sumOpt (g.map (·.fare))
    avg_wait_time := meanOpt (g.map (·.wait_time_minutes))
    avg_surge := meanOpt (g.map (·.surge_multiplier))
    completion_rate := replaceInfNan (fdiv (countCompleted g) (countRideId g))
    zone_vehicle_share :=
      match k.1 with
      | none => .nan
      | some _ => fdiv (countRideId g) (zoneDen df k.1) }

/-- Sort key order of
`sort_values(['pickup_zone', 'total_rides'], ascending=[True, False])`. -/
def vehicleLe (a b : VehicleRow) : Bool :=
  lexLe (optLe strLe) (fun m n => ble n m) (a.pickup_zone, a.total_rides)
    (b.pickup_zone, b.total_rides)

/-- Embedding of `vehicle_type_analysis` applied to a loaded dataset
(lines 153–174). -/
def vehicleOf (df : List Record) : List VehicleRow :=
  ((uniqueKeys (df.map vehicleKey)).map (vehicleRowOf df)) |> sortBy vehicleLe

/-- Grouping key of `surge_analysis`: `['pickup_zone', 'hour']`. -/
def surgeKey (r : Record) : Option String × Option ℕ := (r.pickup_zone, r.hour)

/-- Output row of `surge_analysis`. -/
structure SurgeRow where
  pickup_zone : Option String
  hour : Option ℕ
  ride_count : ℕ
  avg_wait_time : Option ℚ
  avg_surge : Option ℚ
  cancel_rate : ℚ
deriving DecidableEq

/-- Embedding of the `cancel_rate` lambda `1.0 - float(s.mean())` over the
group's boolean `completed` column (line 187).  Groups are nonempty, so the
mean's denominator — the group size — is at least 1. -/
def cancelRate (g : List Record) : ℚ :=
  1 - (countCompleted g : ℚ) / (g.length : ℚ)

/-- Aggregated row of `surge_analysis` for group key `k` (lines 181–190). -/
def surgeRowOf (df : List Record) (k : Option String × Option ℕ) : SurgeRow :=
  let g := groupRows df surgeKey k
  { pickup_zone := k.1
    hour := k.2
    ride_count := countRideId g
    avg_wait_time := meanOpt (g.map (·.wait_time_minutes))
    avg_surge := meanOpt (g.map (·.surge_multiplier))
    cancel_rate := cancelRate g }

/-- Sort key order of `sort_values(['pickup_zone', 'hour'])`. -/
def surgeLe (a b : SurgeRow) : Bool :=
  lexLe (optLe strLe) (optLe ble) (a.pickup_zone, a.hour) (b.pickup_zone, b.hour)

/-- Embedding of `surge_analysis` applied to a loaded dataset
(lines 176–192). -/
def surgeOf (df : List Record) : List SurgeRow :=
  ((uniqueKeys (df.map surgeKey)).map (surgeRowOf df)) |> sortBy surgeLe

/-- Per-column null counts of `df.isna().sum()` on the enriched dataset.  The
`completed` column has boolean dtype after `astype(bool)`, so it admits no
nulls and its count is 0. -/
structure MissingCounts where
  ride_id : ℕ
  timestamp : ℕ
  pickup_zone : ℕ
  dropoff_zone : ℕ
  vehicle_type : ℕ
  distance_km : ℕ
  fare : ℕ
  wait_time_minutes : ℕ
  completed : ℕ
  surge_multiplier : ℕ
  date : ℕ
  hour : ℕ
  day_of_week : ℕ
  month : ℕ
deriving DecidableEq

/-- Computation of the per-column null counts. -/
def missingCountsOf (df : List Record) : MissingCounts :=
  { ride_id := (df.filter (fun r => r.ride_id = RawVal.empty)).length
    timestamp := (df.filter (fun r => r.timestamp = none)).length
    pickup_zone := (df.filter (fun r => r.pickup_zone = none)).length
    dropoff_zone := (df.filter (fun r => r.dropoff_zone = none)).length
    vehicle_type := (df.filter (fun r => r.vehicle_type = none)).length
    distance_km := (df.filter (fun r => r.distance_km = none)).length
    fare := (df.filter (fun r => r.fare = none)).length
    wait_time_minutes := (df.filter (fun r => r.wait_time_minutes = none)).length
    completed := 0
    surge_multiplier := (df.filter (fun r => r.surge_multiplier = none)).length
    date := (df.filter (fun r => r.date = none)).length
    hour := (df.filter (fun r => r.hour = none)).length
    day_of_week := (df.filter (fun r => r.day_of_week = none)).length
    month := (df.filter (fun r => r.month = none)).length }

/-- Timestamp order used by `min()`/`max()` of the `date_range` entry. -/
def tsLe (a b : DateTime) : Bool := lexLe ble ble (a.dateIdx, a.hour) (b.dateIdx, b.hour)

/-- Minimum of the non-null timestamps (`df['timestamp'].min()`; NaT when the
column is empty or all null). -/
def minTs (l : List DateTime) : Option DateTime :=
  l.foldl (fun acc t =>
    match acc with
    | none => some t
    | some m => some (if tsLe t m then t else m)) none

/-- Maximum of the non-null timestamps (`df['timestamp'].max()`). -/
def maxTs (l : List DateTime) : Option DateTime :=
  l.foldl (fun acc t =>
    match acc with
    | none => some t
    | some m => some (if tsLe m t then m else t)) none

/-- Per-row flags of `df.duplicated(subset=['ride_id'])`: a row is flagged
when its ride identifier already occurred on an earlier row (pandas treats
nulls as equal to each other here). -/
def dupFlagsAux (seen : List RawVal) : List RawVal → List Bool
  | [] => []
  | x :: xs => decide (x ∈ seen) :: dupFlagsAux (x :: seen) xs

/-- The `duplicates` entry: `df.duplicated(subset=['ride_id']).sum()`
(line 80). -/
def duplicatesOf (df : List Record) : ℕ :=
  ((dupFlagsAux [] (df.map (·.ride_id))).filter id).length

/-- The Quality Report value object (lines 78–84). -/
structure QualityReport where
  total_records : ℕ
  duplicates : ℕ
  missing_values : MissingCounts
  date_range_min : Option DateTime
  date_range_max : Option DateTime
  completion_rate : Option ℚ
deriving DecidableEq

/-- Embedding of the report built by `data_quality_check` on a loaded
dataset.  `float(df['completed'].mean())` of an empty frame is NaN, hence
`none` on zero rows. -/
def qualityOf (df : List Record) : QualityReport :=
  { total_records := df.length
    duplicates := duplicatesOf df
    missing_values := missingCountsOf df
    date_range_min := minTs (df.filterMap (·.timestamp))
    date_range_max := maxTs (df.filterMap (·.timestamp))
    completion_rate :=
      if df.length = 0 then none
      else some ((countCompleted df : ℚ) / (df.length : ℚ)) }

/-- Session state of a `RideDataProcessor`: the `self.df` reference, absent
until a successful `load_data`. -/
structure Session where
  df : Option (List Record)
deriving DecidableEq

/-- The `ValueError('Data not loaded. Call load_data() first.')` raised by
every aggregation method and the quality check before a load (the spec's
`NotLoadedError`). -/
inductive NotLoadedError
  | notLoaded
deriving DecidableEq

/-- Shared guard of the six read-only methods: raise `NotLoadedError` when no
dataset is loaded, otherwise return the computed value; the session is
returned unchanged either way (none of these methods assigns `self.df`). -/
def guarded {T : Type} (f : List Record → T) (s : Session) :
    Session × Except NotLoadedError T :=
  match s.df with
  | none => (s, .error .notLoaded)
  | some df => (s, .ok (f df))

/-- Embedding of the `load_data` method: on success the parsed frame is
assigned to `self.df`; on failure the error propagates and the session is
unchanged (the assignment on line 66 is only reached on success). -/
def load_data (s : Session) (csv : Csv) :
    Session × Except LoadError (List Record) :=
  match loadResult csv with
  | .ok d => (⟨some d⟩, .ok d)
  | .error e => (s, .error e)

/-- Embedding of the `data_quality_check` method (lines 73–90). -/
def data_quality_check (s : Session) : Session × Except NotLoadedError QualityReport :=
  guarded qualityOf s

/-- Embedding of the `aggregate_by_hour` method (lines 92–113). -/
def aggregate_by_hour (s : Session) : Session × Except NotLoadedError (List HourlyRow) :=
  guarded hourlyOf s

/-- Embedding of the `aggregate_by_zone` method (lines 115–133). -/
def aggregate_by_zone (s : Session) : Session × Except NotLoadedError (List ZonalRow) :=
  guarded zonalOf s

/-- Embedding of the `peak_hours_analysis` method (lines 135–151). -/
def peak_hours_analysis (s : Session) : Session × Except NotLoadedError (List PeakRow) :=
  guarded peakOf s

/-- Embedding of the `vehicle_type_analysis` method (lines 153–174). -/
def vehicle_type_analysis (s : Session) : Session × Except NotLoadedError (List VehicleRow) :=
  guarded vehicleOf s

/-- Embedding of the `surge_analysis` method (lines 176–192). -/
def surge_analysis (s : Session) : Session × Except NotLoadedError (List SurgeRow) :=
  guarded surgeOf s

/-- The spec's invariant on a rate cell: missing, or finite within [0,1]. -/
def ratioOk (v : FloatVal) : Prop :=
  v = .nan ∨ ∃ q, v = .fin q ∧ 0 ≤ q ∧ q ≤ 1

/-- Finite part of a float cell: the value when finite, 0 otherwise.  Summing
`finPart` over a column matches a pandas skip-NaN sum of that column. -/
def finPart : FloatVal → ℚ
  | .fin q => q
  | _ => 0

/-- Concrete raw row builder used by the witness datasets below. -/
def mkRow (rid : RawVal) (ts : Option DateTime) (z v : Option String) (c : Bool) :
    RawRow :=
  { ride_id := rid, timestamp := ts, pickup_zone := z, dropoff_zone := some "B",
    vehicle_type := v, distance_km := .num 1, fare := .num 10,
    wait_time_minutes := .num 2, completed := .boolv c, surge_multiplier := .num 1 }

/-- One-row witness source: ride "a", Monday 9:00, zone A, vehicle x,
completed. -/
def wCsv1 : Csv :=
  { header := REQUIRED,
    rows := [mkRow (.text "a") (some ⟨0, 9⟩) (some "A") (some "x") true] }

/-- The dataset loaded from `wCsv1`. -/
def wDf1 : List Record := wCsv1.rows.map enrich

/-- Two-ride witness dataset with distinct ride ids "a" and "b". -/
def wDf8 : List Record :=
  [mkRow (.text "a") (some ⟨0, 9⟩) (some "A") (some "x") true,
   mkRow (.text "b") (some ⟨0, 10⟩) (some "A") (some "x") true].map enrich

/-- An extra record reusing ride id "a" with a different pickup zone. -/
def wDup8 : Record := enrich (mkRow (.text "a") (some ⟨0, 11⟩) (some "C") (some "y") false)

/-- Counterexample source for the rate-bounds claim: two rides in one
date/hour group, both completed, one with a missing ride id. -/
def ceCsv : Csv :=
  { header := REQUIRED,
    rows := [mkRow (.text "a") (some ⟨0, 9⟩) (some "A") (some "x") true,
             mkRow .empty (some ⟨0, 9⟩) (some "A") (some "x") true] }

/-- The dataset loaded from `ceCsv`. -/
def ceDf : List Record := ceCsv.rows.map enrich

/-- Counterexample source for the share-sums claim: two rides whose
`pickup_zone` is missing. -/
def c6Csv : Csv :=
  { header := REQUIRED,
    rows := [mkRow (.text "a") (some ⟨0, 9⟩) none (some "x") true,
             mkRow (.text "b") (some ⟨0, 9⟩) none (some "x") true] }

/-- The dataset loaded from `c6Csv`. -/
def c6Df : List Record := c6Csv.rows.map enrich

/-- Counterexample source for the schema-check claim: the `timestamp` column
is absent. -/
def c3Csv : Csv :=
  { header := REQUIRED.filter (fun c => c ≠ "timestamp"), rows := [] }

/-- Witness source for the schema-check claim: the `fare` column is absent,
`timestamp` present. -/
def c3wCsv : Csv :=
  { header := REQUIRED.filter (fun c => c ≠ "fare"), rows := [] }

/-- Witness source for the peak-hours ordering claim: a Tuesday ride listed
before a Monday ride. -/
def w5Csv : Csv :=
  { header := REQUIRED,
    rows := [mkRow (.text "a") (some ⟨1, 9⟩) (some "A") (some "x") true,
             mkRow (.text "b") (some ⟨0, 9⟩) (some "A") (some "x") true] }

/-- The dataset loaded from `w5Csv`. -/
def w5Df : List Record := w5Csv.rows.map enrich

theorem insertSorted_perm {α : Type} (le : α → α → Bool) (x : α) (l : List α) :
    (insertSorted le x l).Perm (x :: l) := by
  induction l with
  | nil => simp [insertSorted]
  | cons y ys ih =>
    rw [insertSorted]
    split
    · exact List.Perm.refl _
    · exact (ih.cons y).trans (List.Perm.swap x y ys)

theorem sortBy_perm {α : Type} (le : α → α → Bool) (l : List α) :
    (sortBy le l).Perm l := by
  induction l with
  | nil => exact List.Perm.refl _
  | cons x xs ih =>
    exact (insertSorted_perm le x (sortBy le xs)).trans (ih.cons x)

theorem mem_sortBy {α : Type} {le : α → α → Bool} {a : α} {l : List α} :
    a ∈ sortBy le l ↔ a ∈ l := (sortBy_perm le l).mem_iff

theorem pairwise_insertSorted {α : Type} {le : α → α → Bool}
    (htrans : ∀ a b c, le a b = true → le b c = true → le a c = true)
    (htotal : ∀ a b, le a b = true ∨ le b a = true)
    (x : α) {l : List α} (hl : l.Pairwise (fun a b => le a b = true)) :
    (insertSorted le x l).Pairwise (fun a b => le a b = true) := by
  induction l with
  | nil => simp [insertSorted]
  | cons y ys ih =>
    rw [insertSorted]
    rcases List.pairwise_cons.mp hl with ⟨hy, hys⟩
    split
    · rename_i hxy
      refine List.pairwise_cons.mpr ⟨?_, hl⟩
      intro z hz
      rcases List.mem_cons.mp hz with rfl | hz
      · exact hxy
      · exact htrans x y z hxy (hy z hz)
    · rename_i hxy
      have hyx : le y x = true := by
        rcases htotal x y with h | h
        · exact absurd h hxy
        · exact h
      refine List.pairwise_cons.mpr ⟨?_, ih hys⟩
      intro z hz
      rcases List.mem_cons.mp ((insertSorted_perm le x ys).mem_iff.mp hz) with rfl | hz
      · exact hyx
      · exact hy z hz

theorem pairwise_sortBy {α : Type} {le : α → α → Bool}
    (htrans : ∀ a b c, le a b = true → le b c = true → le a c = true)
    (htotal : ∀ a b, le a b = true ∨ le b a = true)
    (l : List α) : (sortBy le l).Pairwise (fun a b => le a b = true) := by
  induction l with
  | nil => simp [sortBy]
  | cons x xs ih => exact pairwise_insertSorted htrans htotal x ih

theorem mem_uniqueKeysAux {κ : Type} [DecidableEq κ] {a : κ} :
    ∀ {seen l : List κ}, a ∈ uniqueKeysAux seen l ↔ a ∈ l ∧ a ∉ seen := by
  intro seen l
  induction l generalizing seen with
  | nil => simp [uniqueKeysAux]
  | cons k ks ih =>
    rw [uniqueKeysAux]
    split
    · rename_i hk
      rw [ih]
      simp only [List.mem_cons]
      constructor
      · rintro ⟨h1, h2⟩
        exact ⟨Or.inr h1, h2⟩
      · rintro ⟨h1 | h1, h2⟩
        · subst h1; exact absurd hk h2
        · exact ⟨h1, h2⟩
    · rename_i hk
      simp only [List.mem_cons, ih]
      constructor
      · rintro (rfl | ⟨h1, h2⟩)
        · exact ⟨Or.inl rfl, hk⟩
        · exact ⟨Or.inr h1, fun h => h2 (Or.inr h)⟩
      · rintro ⟨h1 | h1, h2⟩
        · exact Or.inl h1
        · by_cases hak : a = k
          · exact Or.inl hak
          · refine Or.inr ⟨h1, ?_⟩
            intro h
            rcases h with h' | h'
            · exact hak h'
            · exact h2 h'

theorem nodup_uniqueKeysAux {κ : Type} [DecidableEq κ] :
    ∀ {seen l : List κ}, (uniqueKeysAux seen l).Nodup := by
  intro seen l
  induction l generalizing seen with
  | nil => simp [uniqueKeysAux]
  | cons k ks ih =>
    rw [uniqueKeysAux]
    split
    · exact ih
    · refine List.nodup_cons.mpr ⟨?_, ih⟩
      intro h
      exact (mem_uniqueKeysAux.mp h).2 (List.mem_cons_self k _)

theorem mem_uniqueKeys {κ : Type} [DecidableEq κ] {a : κ} {l : List κ} :
    a ∈ uniqueKeys l ↔ a ∈ l := by
  rw [uniqueKeys, mem_uniqueKeysAux]
  simp

theorem nodup_uniqueKeys {κ : Type} [DecidableEq κ] (l : List κ) :
    (uniqueKeys l).Nodup := nodup_uniqueKeysAux

theorem sum_map_div {α : Type} (l : List α) (f : α → ℕ) (D : ℚ) :
    (l.map (fun x => ((f x : ℚ) / D))).sum = (l.map (fun x => ((f x : ℚ)))).sum / D := by
  induction l with
  | nil => simp
  | cons x xs ih => simp [ih, add_div]

theorem le_sum_of_mem {l : List ℕ} {a : ℕ} (h : a ∈ l) : a ≤ l.sum := by
  induction l with
  | nil => cases h
  | cons x xs ih =>
    rcases List.mem_cons.mp h with rfl | h
    · simp [List.sum_cons]
    · simp only [List.sum_cons]
      exact Nat.le_trans (ih h) (Nat.le_add_left _ _)

theorem replaceInfNan_not_inf (v : FloatVal) :
    replaceInfNan v ≠ .inf ∧ replaceInfNan v ≠ .ninf := by
  cases v <;> simp [replaceInfNan]

theorem replaceInfNan_fdiv_den_zero (n : ℚ) : replaceInfNan (fdiv n 0) = .nan := by
  unfold fdiv
  rw [if_pos rfl]
  split_ifs <;> rfl

theorem fdiv_count_den_zero {c t : ℕ} (hc : c ≤ t) (ht : t = 0) :
    fdiv (c : ℚ) (t : ℚ) = .nan := by
  subst ht
  have hc0 : c = 0 := Nat.le_zero.mp hc
  subst hc0
  simp [fdiv]

theorem fdiv_count_not_inf {c t : ℕ} (hc : c ≤ t) :
    fdiv (c : ℚ) (t : ℚ) ≠ .inf ∧ fdiv (c : ℚ) (t : ℚ) ≠ .ninf := by
  by_cases ht : t = 0
  · rw [fdiv_count_den_zero hc ht]
    simp
  · have : ((t : ℚ)) ≠ 0 := Nat.cast_ne_zero.mpr ht
    simp [fdiv, this]

theorem fdiv_count_eq_replace {c t : ℕ} (hc : c ≤ t) :
    fdiv (c : ℚ) (t : ℚ) = replaceInfNan (fdiv (c : ℚ) (t : ℚ)) := by
  by_cases ht : t = 0
  · rw [fdiv_count_den_zero hc ht]
    rfl
  · have : ((t : ℚ)) ≠ 0 := Nat.cast_ne_zero.mpr ht
    simp [fdiv, this, replaceInfNan]

theorem ratioOk_replace_fdiv {c t : ℕ} (hc : c ≤ t) :
    ratioOk (replaceInfNan (fdiv (c : ℚ) (t : ℚ))) := by
  by_cases ht : t = 0
  · left
    rw [fdiv_count_den_zero hc ht]
    rfl
  · right
    have htQ : ((t : ℚ)) ≠ 0 := Nat.cast_ne_zero.mpr ht
    have htQ' : (0 : ℚ) < t := by exact_mod_cast Nat.pos_of_ne_zero ht
    refine ⟨(c : ℚ) / (t : ℚ), ?_, ?_, ?_⟩
    · simp [fdiv, htQ, replaceInfNan]
    · positivity
    · rw [div_le_one htQ']
      exact_mod_cast hc

theorem loaded_eq {csv : Csv} {df : List Record} (h : loadResult csv = .ok df) :
    df = csv.rows.map enrich := by
  unfold loadResult at h
  by_cases hts : "timestamp" ∈ csv.header
  · rw [if_pos hts] at h
    rcases hf : REQUIRED.filter (fun c => ¬ c ∈ csv.header) with _ | ⟨c, cs⟩ <;>
      rw [hf] at h
    · exact (Except.ok.inj h).symm
    · exact absurd h (by simp)
  · rw [if_neg hts] at h
    exact absurd h (by simp)

theorem mem_loaded {csv : Csv} {df : List Record} {r : Record}
    (h : loadResult csv = .ok df) (hr : r ∈ df) :
    ∃ raw, raw ∈ csv.rows ∧ r = enrich raw := by
  rw [loaded_eq h] at hr
  rcases List.mem_map.mp hr with ⟨raw, h1, h2⟩
  exact ⟨raw, h1, h2.symm⟩

theorem dayName_mem_day_order (n : ℕ) : dayName n ∈ day_order := by
  unfold dayName day_order
  split_ifs <;> simp

theorem record_day_shape {csv : Csv} {df : List Record}
    (h : loadResult csv = .ok df) :
    ∀ r ∈ df, (r.day_of_week = none ∧ r.hour = none) ∨
      ((∃ d ∈ day_order, r.day_of_week = some d) ∧ ∃ hn, r.hour = some hn) := by
  intro r hr
  rcases mem_loaded h hr with ⟨raw, _, rfl⟩
  cases hts : raw.timestamp with
  | none => left; simp [enrich, hts]
  | some t =>
    right
    exact ⟨⟨dayName (dowOf t.dateIdx), dayName_mem_day_order _, by simp [enrich, hts]⟩,
      ⟨t.hour, by simp [enrich, hts]⟩⟩

theorem mem_group_subset {κ : Type} [DecidableEq κ] {df : List Record}
    {key : Record → κ} {k : κ} {r : Record} (hr : r ∈ groupRows df key k) : r ∈ df :=
  (List.mem_filter.mp hr).1

theorem countRideId_eq_length {df : List Record}
    (hrid : ∀ r ∈ df, r.ride_id ≠ RawVal.empty)
    {κ : Type} [DecidableEq κ] (key : Record → κ) (k : κ) :
    countRideId (groupRows df key k) = (groupRows df key k).length := by
  unfold countRideId
  congr 1
  apply List.filter_eq_self.mpr
  intro r hr
  simpa using hrid r (mem_group_subset hr)

theorem countCompleted_le_length (g : List Record) : countCompleted g ≤ g.length :=
  List.length_filter_le _ _

theorem countRideId_le_length (g : List Record) : countRideId g ≤ g.length :=
  List.length_filter_le _ _

theorem mem_hourlyOf {df : List Record} {row : HourlyRow} :
    row ∈ hourlyOf df ↔
      ∃ k ∈ uniqueKeys (df.map hourlyKey), hourlyRowOf df k = row := by
  unfold hourlyOf
  rw [mem_sortBy, List.mem_map]

theorem mem_zonalOf {df : List Record} {row : ZonalRow} :
    row ∈ zonalOf df ↔
      ∃ k ∈ uniqueKeys (df.map zonalKey), zonalRowOf df k = row := by
  unfold zonalOf
  rw [mem_sortBy, List.mem_map]

theorem mem_peakOf {df : List Record} {row : PeakRow} :
    row ∈ peakOf df ↔
      ∃ k ∈ uniqueKeys (df.map peakKey), peakRowOf df k = row := by
  unfold peakOf
  rw [mem_sortBy, List.mem_map]

theorem mem_vehicleOf {df : List Record} {row : VehicleRow} :
    row ∈ vehicleOf df ↔
      ∃ k ∈ uniqueKeys (df.map vehicleKey), vehicleRowOf df k = row := by
  unfold vehicleOf
  rw [mem_sortBy, List.mem_map]

theorem mem_surgeOf {df : List Record} {row : SurgeRow} :
    row ∈ surgeOf df ↔
      ∃ k ∈ uniqueKeys (df.map surgeKey), surgeRowOf df k = row := by
  unfold surgeOf
  rw [mem_sortBy, List.mem_map]

end RideGen

namespace RideGen

/-- C4: calling any of the five aggregation transforms or the quality audit
before a successful load raises `NotLoadedError` and leaves the session
unchanged; after a successful load each of them succeeds, again leaving the
session unchanged. -/
theorem C4_not_loaded_guard (s : Session) :
    (s.df = none →
      data_quality_check s = (s, .error .notLoaded) ∧
      aggregate_by_hour s = (s, .error .notLoaded) ∧
      aggregate_by_zone s = (s, .error .notLoaded) ∧
      peak_hours_analysis s = (s, .error .notLoaded) ∧
      vehicle_type_analysis s = (s, .error .notLoaded) ∧
      surge_analysis s = (s, .error .notLoaded)) ∧
    (∀ d, s.df = some d →
      data_quality_check s = (s, .ok (qualityOf d)) ∧
      aggregate_by_hour s = (s, .ok (hourlyOf d)) ∧
      aggregate_by_zone s = (s, .ok (zonalOf d)) ∧
      peak_hours_analysis s = (s, .ok (peakOf d)) ∧
      vehicle_type_analysis s = (s, .ok (vehicleOf d)) ∧
      surge_analysis s = (s, .ok (surgeOf d))) := by
  constructor
  · intro h
    simp [data_quality_check, aggregate_by_hour, aggregate_by_zone,
      peak_hours_analysis, vehicle_type_analysis, surge_analysis, guarded, h]
  · intro d h
    simp [data_quality_check, aggregate_by_hour, aggregate_by_zone,
      peak_hours_analysis, vehicle_type_analysis, surge_analysis, guarded, h]

/-- Witness for C4 at concrete sessions: a fresh session errors, a loaded one
succeeds. -/
theorem C4_witness :
    data_quality_check ⟨none⟩ = (⟨none⟩, .error .notLoaded) ∧
    aggregate_by_hour ⟨some wDf1⟩ = (⟨some wDf1⟩, .ok (hourlyOf wDf1)) :=
  ⟨((C4_not_loaded_guard ⟨none⟩).1 rfl).1,
   ((C4_not_loaded_guard ⟨some wDf1⟩).2 wDf1 rfl).2.1⟩

/-- C9: loading is deterministic — two loads of the same unchanged source
produce equal datasets (hence equal row counts and derived fields) and every
transform and the quality audit agree on them. -/
theorem C9_determinism {csv : Csv} {d1 d2 : List Record}
    (h1 : loadResult csv = .ok d1) (h2 : loadResult csv = .ok d2) :
    d1.length = d2.length ∧ d1 = d2 ∧
    hourlyOf d1 = hourlyOf d2 ∧ zonalOf d1 = zonalOf d2 ∧
    peakOf d1 = peakOf d2 ∧ vehicleOf d1 = vehicleOf d2 ∧
    surgeOf d1 = surgeOf d2 ∧ qualityOf d1 = qualityOf d2 := by
  have h : d1 = d2 := by rw [loaded_eq h1, loaded_eq h2]
  subst h
  exact ⟨rfl, rfl, rfl, rfl, rfl, rfl, rfl, rfl⟩

/-- Witness for C9 at the concrete source `wCsv1`. -/
theorem C9_witness :
    wDf1.length = wDf1.length ∧ wDf1 = wDf1 ∧
    hourlyOf wDf1 = hourlyOf wDf1 ∧ zonalOf wDf1 = zonalOf wDf1 ∧
    peakOf wDf1 = peakOf wDf1 ∧ vehicleOf wDf1 = vehicleOf wDf1 ∧
    surgeOf wDf1 = surgeOf wDf1 ∧ qualityOf wDf1 = qualityOf wDf1 :=
  @C9_determinism wCsv1 wDf1 wDf1 (by rfl) (by rfl)

/-- C10: the `completed` field of every enriched record is a strict boolean —
an absent source value coerces to `True` (`bool(nan)`), any non-empty text
coerces to `True`, enrichment stores exactly the `astype(bool)` coercion, and
the quality report's missing-value count for `completed` is always 0. -/
theorem C10_completed_strict_bool :
    astypeBool RawVal.empty = true ∧
    (∀ s : String, s ≠ "" → astypeBool (RawVal.text s) = true) ∧
    (∀ raw : RawRow, (enrich raw).completed = astypeBool raw.completed) ∧
    (∀ df : List Record, (qualityOf df).missing_values.completed = 0) := by
  refine ⟨rfl, ?_, fun raw => rfl, fun df => rfl⟩
  intro s hs
  simp [astypeBool, hs]

/-- Witness for C10 at a concrete non-empty non-boolean text value. -/
theorem C10_witness : astypeBool (RawVal.text "yes") = true :=
  C10_completed_strict_bool.2.1 "yes" (by decide)

theorem dupFlagsAux_count (l : List RawVal) :
    ∀ seen : List RawVal,
      ((dupFlagsAux seen l).filter id).length =
        l.length - (l.toFinset \ seen.toFinset).card := by
  induction l with
  | nil => intro seen; simp [dupFlagsAux]
  | cons x xs ih =>
    intro seen
    rw [dupFlagsAux, List.filter_cons]
    by_cases hx : x ∈ seen
    · have hxf : x ∈ seen.toFinset := List.mem_toFinset.mpr hx
      have hd : decide (x ∈ seen) = true := by simp [hx]
      rw [hd]
      simp only [id, if_pos, List.length_cons]
      rw [ih (x :: seen)]
      have hseen : (x :: seen).toFinset = seen.toFinset := by
        rw [List.toFinset_cons, Finset.insert_eq_self.mpr hxf]
      rw [hseen, List.toFinset_cons, Finset.insert_sdiff_of_mem _ hxf]
      have hcard : (xs.toFinset \ seen.toFinset).card ≤ xs.length :=
        Nat.le_trans (Finset.card_le_card Finset.sdiff_subset) (List.toFinset_card_le xs)
      omega
    · have hx' : x ∉ seen.toFinset := fun hc => hx (List.mem_toFinset.mp hc)
      have hd : decide (x ∈ seen) = false := by simp [hx]
      rw [hd]
      simp only [id, if_neg, Bool.false_eq_true, not_false_iff]
      rw [ih (x :: seen)]
      have hkey : ((x :: xs).toFinset \ seen.toFinset).card
          = (xs.toFinset \ (x :: seen).toFinset).card + 1 := by
        have hset : (x :: xs).toFinset \ seen.toFinset
            = insert x (xs.toFinset \ (x :: seen).toFinset) := by
          ext a
          simp only [List.toFinset_cons, Finset.mem_sdiff, Finset.mem_insert]
          constructor
          · rintro ⟨ha | ha, hb⟩
            · exact Or.inl ha
            · by_cases hax : a = x
              · exact Or.inl hax
              · exact Or.inr ⟨ha, fun hc => (hc.elim hax hb)⟩
          · rintro (rfl | ⟨ha, hb⟩)
            · exact ⟨Or.inl rfl, hx'⟩
            · exact ⟨Or.inr ha, fun hc => hb (Or.inr hc)⟩
        rw [hset, Finset.card_insert_of_not_mem]
        intro hc
        exact (Finset.mem_sdiff.mp hc).2
          (List.mem_toFinset.mpr (List.mem_cons_self x seen))
      rw [List.length_cons, hkey]
      have hcard : (xs.toFinset \ (x :: seen).toFinset).card ≤ xs.length :=
        Nat.le_trans (Finset.card_le_card Finset.sdiff_subset) (List.toFinset_card_le xs)
      omega

/-- C8: the quality report's `duplicates` equals the total record count minus
the number of distinct ride identifiers, and appending an extra record whose
ride identifier already occurs (any other field free) increases `duplicates`
by exactly 1. -/
theorem C8_duplicates (df : List Record) (x : Record)
    (hx : x.ride_id ∈ df.map (fun r => r.ride_id)) :
    (qualityOf df).duplicates
        = df.length - (df.map (fun r => r.ride_id)).toFinset.card ∧
    (qualityOf (df ++ [x])).duplicates = (qualityOf df).duplicates + 1 := by
  have hbase : ∀ d : List Record,
      (qualityOf d).duplicates
        = d.length - (d.map (fun r => r.ride_id)).toFinset.card := by
    intro d
    show duplicatesOf d = _
    unfold duplicatesOf
    rw [dupFlagsAux_count]
    simp
  refine ⟨hbase df, ?_⟩
  rw [hbase (df ++ [x]), hbase df]
  have hmap : (df ++ [x]).map (fun r => r.ride_id)
      = df.map (fun r => r.ride_id) ++ [x.ride_id] := by
    simp
  have hset : ((df ++ [x]).map (fun r => r.ride_id)).toFinset
      = (df.map (fun r => r.ride_id)).toFinset := by
    rw [hmap, List.toFinset_append]
    have : (x.ride_id : RawVal) ∈ (df.map (fun r => r.ride_id)).toFinset :=
      List.mem_toFinset.mpr hx
    simp [Finset.union_eq_left, this]
  have hlen : (df ++ [x]).length = df.length + 1 := by simp
  have hcard : ((df.map (fun r => r.ride_id)).toFinset).card ≤ df.length :=
    Nat.le_trans (List.toFinset_card_le _) (by simp)
  have hne : ((df.map (fun r => r.ride_id)).toFinset).card ≥ 1 := by
    have : x.ride_id ∈ (df.map (fun r => r.ride_id)).toFinset :=
      List.mem_toFinset.mpr hx
    exact Finset.card_pos.mpr ⟨_, this⟩
  rw [hset, hlen]
  omega

/-- Witness for C8: a concrete two-ride dataset plus a third record reusing
ride id "a" with a different zone. -/
theorem C8_witness :
    (qualityOf wDf8).duplicates
        = wDf8.length - (wDf8.map (fun r => r.ride_id)).toFinset.card ∧
    (qualityOf (wDf8 ++ [wDup8])).duplicates = (qualityOf wDf8).duplicates + 1 :=
  C8_duplicates wDf8 wDup8 (by decide)

theorem completionRate_facts (c t : ℕ) :
    replaceInfNan (fdiv (c : ℚ) (t : ℚ)) ≠ .inf ∧
    replaceInfNan (fdiv (c : ℚ) (t : ℚ)) ≠ .ninf ∧
    (t = 0 → replaceInfNan (fdiv (c : ℚ) (t : ℚ)) = .nan) := by
  refine ⟨(replaceInfNan_not_inf _).1, (replaceInfNan_not_inf _).2, ?_⟩
  intro ht
  subst ht
  rw [Nat.cast_zero, replaceInfNan_fdiv_den_zero]

theorem share_facts {n D : ℕ} (h : n ≤ D) :
    fdiv (n : ℚ) (D : ℚ) = replaceInfNan (fdiv (n : ℚ) (D : ℚ)) ∧
    fdiv (n : ℚ) (D : ℚ) ≠ .inf ∧ fdiv (n : ℚ) (D : ℚ) ≠ .ninf ∧
    (D = 0 → fdiv (n : ℚ) (D : ℚ) = .nan) :=
  ⟨fdiv_count_eq_replace h, (fdiv_count_not_inf h).1, (fdiv_count_not_inf h).2,
   fdiv_count_den_zero h⟩

theorem count_le_zonalGrand {df : List Record} {k : Option String}
    (hk : k ∈ uniqueKeys (df.map zonalKey)) :
    countRideId (groupRows df zonalKey k) ≤ zonalGrand df := by
  unfold zonalGrand
  exact le_sum_of_mem (List.mem_map_of_mem _ hk)

theorem count_le_peakGrand {df : List Record} {k : Option String × Option ℕ}
    (hk : k ∈ uniqueKeys (df.map peakKey)) :
    countRideId (groupRows df peakKey k) ≤ peakGrand df := by
  unfold peakGrand
  exact le_sum_of_mem (List.mem_map_of_mem _ hk)

theorem count_le_zoneDen {df : List Record} {k : Option String × Option String}
    (hk : k ∈ uniqueKeys (df.map vehicleKey)) :
    countRideId (groupRows df vehicleKey k) ≤ zoneDen df k.1 := by
  unfold zoneDen
  apply le_sum_of_mem
  apply List.mem_map_of_mem
  exact List.mem_filter.mpr ⟨hk, by simp⟩

/-- C1: in every transform, every derived-ratio value is normalized — it
equals `replaceInfNan` of the raw division, is never ±infinity, and a zero
denominator yields the missing value (NaN).  For `cancel_rate` the
denominator, the group size, is never zero so no normalization is needed. -/
theorem C1_ratio_normalization (df : List Record) :
    (∀ row ∈ hourlyOf df,
        row.completion_rate
            = replaceInfNan (fdiv (row.completed_rides : ℚ) (row.total_rides : ℚ)) ∧
        row.completion_rate ≠ .inf ∧ row.completion_rate ≠ .ninf ∧
        (row.total_rides = 0 → row.completion_rate = .nan)) ∧
    (∀ row ∈ zonalOf df,
        (row.completion_rate
            = replaceInfNan (fdiv (row.completed_rides : ℚ) (row.total_rides : ℚ)) ∧
         row.completion_rate ≠ .inf ∧ row.completion_rate ≠ .ninf ∧
         (row.total_rides = 0 → row.completion_rate = .nan)) ∧
        (row.ride_share
            = replaceInfNan (fdiv (row.total_rides : ℚ) (zonalGrand df : ℚ)) ∧
         row.ride_share ≠ .inf ∧ row.ride_share ≠ .ninf ∧
         (zonalGrand df = 0 → row.ride_share = .nan))) ∧
    (∀ row ∈ peakOf df,
        row.share_of_week
            = replaceInfNan (fdiv (row.ride_count : ℚ) (peakGrand df : ℚ)) ∧
        row.share_of_week ≠ .inf ∧ row.share_of_week ≠ .ninf ∧
        (peakGrand df = 0 → row.share_of_week = .nan)) ∧
    (∀ row ∈ vehicleOf df,
        (row.completion_rate
            = replaceInfNan (fdiv (row.completed_rides : ℚ) (row.total_rides : ℚ)) ∧
         row.completion_rate ≠ .inf ∧ row.completion_rate ≠ .ninf ∧
         (row.total_rides = 0 → row.completion_rate = .nan)) ∧
        (row.zone_vehicle_share ≠ .inf ∧ row.zone_vehicle_share ≠ .ninf ∧
         (zoneDen df row.pickup_zone = 0 → row.zone_vehicle_share = .nan) ∧
         (row.pickup_zone ≠ none →
           row.zone_vehicle_share
               = replaceInfNan
                   (fdiv (row.total_rides : ℚ) (zoneDen df row.pickup_zone : ℚ))))) ∧
    (∀ k ∈ uniqueKeys (df.map surgeKey), (groupRows df surgeKey k).length ≠ 0) := by
  refine ⟨?_, ?_, ?_, ?_, ?_⟩
  · intro row hrow
    rcases mem_hourlyOf.mp hrow with ⟨k, hk, rfl⟩
    exact ⟨rfl, completionRate_facts _ _⟩
  · intro row hrow
    rcases mem_zonalOf.mp hrow with ⟨k, hk, rfl⟩
    have hle := count_le_zonalGrand hk
    rcases share_facts hle with ⟨h1, h2, h3, h4⟩
    exact ⟨⟨rfl, completionRate_facts _ _⟩, h1, h2, h3, h4⟩
  · intro row hrow
    rcases mem_peakOf.mp hrow with ⟨k, hk, rfl⟩
    have hle := count_le_peakGrand hk
    rcases share_facts hle with ⟨h1, h2, h3, h4⟩
    exact ⟨h1, h2, h3, h4⟩
  · intro row hrow
    rcases mem_vehicleOf.mp hrow with ⟨k, hk, rfl⟩
    have hle := count_le_zoneDen hk
    rcases k with ⟨k1, k2⟩
    refine ⟨⟨rfl, completionRate_facts _ _⟩, ?_⟩
    cases k1 with
    | none =>
      exact ⟨fun hcon => FloatVal.noConfusion hcon,
        fun hcon => FloatVal.noConfusion hcon,
        fun _ => rfl, fun hne => absurd rfl hne⟩
    | some z =>
      rcases share_facts hle with ⟨h1, h2, h3, h4⟩
      exact ⟨h2, h3, h4, fun _ => h1⟩
  · intro k hk
    rcases List.mem_map.mp (mem_uniqueKeys.mp hk) with ⟨r, hr, rfl⟩
    have hmem : r ∈ groupRows df surgeKey (surgeKey r) :=
      List.mem_filter.mpr ⟨hr, by simp⟩
    intro h0
    rw [List.length_eq_zero] at h0
    rw [h0] at hmem
    cases hmem

/-- Witness for C1 at the loaded one-ride dataset: its hourly row's
completion rate is not an infinity. -/
theorem C1_witness :
    (hourlyRowOf wDf1 ((some 0 : Option ℤ), (some 9 : Option ℕ))).completion_rate
      ≠ .inf := by
  have hmem : hourlyRowOf wDf1 ((some 0 : Option ℤ), (some 9 : Option ℕ)) ∈ hourlyOf wDf1 := by
    have h : hourlyOf wDf1 = [hourlyRowOf wDf1 ((some 0 : Option ℤ), (some 9 : Option ℕ))] := by rfl
    rw [h]
    exact List.mem_singleton_self _
  exact ((C1_ratio_normalization wDf1).1 _ hmem).2.1

theorem cancelRate_unit (g : List Record) : 0 ≤ cancelRate g ∧ cancelRate g ≤ 1 := by
  unfold cancelRate
  rcases Nat.eq_zero_or_pos g.length with h0 | hpos
  · have hc : countCompleted g = 0 := by
      have := countCompleted_le_length g
      omega
    rw [h0, hc]
    norm_num
  · have hc := countCompleted_le_length g
    have hposQ : (0 : ℚ) < (g.length : ℚ) := by exact_mod_cast hpos
    constructor
    · have hd : (countCompleted g : ℚ) / (g.length : ℚ) ≤ 1 := by
        rw [div_le_one hposQ]
        exact_mod_cast hc
      linarith
    · have hd : 0 ≤ (countCompleted g : ℚ) / (g.length : ℚ) := by positivity
      linarith

/-- Counterexample to C2 as stated: in the dataset loaded from `ceCsv` — two
completed rides in one date/hour group, one with a missing ride id — the
hourly row has `completed_rides = 2` but `total_rides = 1` (the `count`
aggregate skips the null ride id), so `completion_rate = 2`, which is
neither missing nor within [0,1]. -/
theorem C2_counterexample :
    loadResult ceCsv = .ok ceDf ∧
    (hourlyOf ceDf).map (fun row => row.completion_rate) = [.fin 2] ∧
    ¬ ratioOk (.fin 2) := by
  refine ⟨by rfl, ?_, ?_⟩
  · have h1 : hourlyOf ceDf
        = [hourlyRowOf ceDf ((some 0 : Option ℤ), (some 9 : Option ℕ))] := by rfl
    rw [h1]
    simp only [List.map_cons, List.map_nil, hourlyRowOf]
    have h2 : countCompleted
        (groupRows ceDf hourlyKey ((some 0 : Option ℤ), (some 9 : Option ℕ))) = 2 := by
      decide
    have h3 : countRideId
        (groupRows ceDf hourlyKey ((some 0 : Option ℤ), (some 9 : Option ℕ))) = 1 := by
      decide
    rw [h2, h3]
    norm_num [fdiv, replaceInfNan]
  · rintro (h | ⟨q, hq, h0, h1⟩)
    · exact FloatVal.noConfusion h
    · have h2 : (2 : ℚ) = q := FloatVal.fin.inj hq
      rw [← h2] at h1
      norm_num at h1

/-- C2 (amended): provided no record has a missing ride identifier, every
`completion_rate` of the Hourly, Zonal and Vehicle-segment tables is missing
or within [0,1]; `cancel_rate` of the Surge table is always within [0,1].
(With missing ride identifiers `completion_rate` can exceed 1, see the
counterexample.) -/
theorem C2_rates_unit_interval {df : List Record}
    (hrid : ∀ r ∈ df, r.ride_id ≠ RawVal.empty) :
    (∀ row ∈ hourlyOf df, ratioOk row.completion_rate) ∧
    (∀ row ∈ zonalOf df, ratioOk row.completion_rate) ∧
    (∀ row ∈ vehicleOf df, ratioOk row.completion_rate) ∧
    (∀ row ∈ surgeOf df, 0 ≤ row.cancel_rate ∧ row.cancel_rate ≤ 1) := by
  have hkey : ∀ {κ : Type} [DecidableEq κ] (key : Record → κ) (k : κ),
      ratioOk (replaceInfNan (fdiv (countCompleted (groupRows df key k) : ℚ)
        (countRideId (groupRows df key k) : ℚ))) := by
    intro κ _ key k
    have heq := countRideId_eq_length hrid key k
    have hle : countCompleted (groupRows df key k)
        ≤ countRideId (groupRows df key k) := by
      rw [heq]
      exact countCompleted_le_length _
    exact ratioOk_replace_fdiv hle
  refine ⟨?_, ?_, ?_, ?_⟩
  · intro row hrow
    rcases mem_hourlyOf.mp hrow with ⟨k, hk, rfl⟩
    exact hkey hourlyKey k
  · intro row hrow
    rcases mem_zonalOf.mp hrow with ⟨k, hk, rfl⟩
    exact hkey zonalKey k
  · intro row hrow
    rcases mem_vehicleOf.mp hrow with ⟨k, hk, rfl⟩
    exact hkey vehicleKey k
  · intro row hrow
    rcases mem_surgeOf.mp hrow with ⟨k, hk, rfl⟩
    exact cancelRate_unit _

/-- Witness for C2 at the loaded one-ride dataset (all ride ids present). -/
theorem C2_witness :
    ratioOk (hourlyRowOf wDf1 ((some 0 : Option ℤ), (some 9 : Option ℕ))).completion_rate := by
  have hmem : hourlyRowOf wDf1 ((some 0 : Option ℤ), (some 9 : Option ℕ)) ∈ hourlyOf wDf1 := by
    have h : hourlyOf wDf1
        = [hourlyRowOf wDf1 ((some 0 : Option ℤ), (some 9 : Option ℕ))] := by rfl
    rw [h]
    exact List.mem_singleton_self _
  exact (C2_rates_unit_interval (by decide)).1 _ hmem

/-- C7: for every loaded dataset and every record, each transform's output
has a row carrying that record's grouping-key values — including records
whose key values are missing, which form their own group. -/
theorem C7_missing_groups {csv : Csv} {df : List Record}
    (h : loadResult csv = .ok df) :
    ∀ r ∈ df,
      (∃ row ∈ hourlyOf df, row.date = r.date ∧ row.hour = r.hour) ∧
      (∃ row ∈ zonalOf df, row.pickup_zone = r.pickup_zone) ∧
      (∃ row ∈ peakOf df, row.day_of_week = r.day_of_week ∧ row.hour = r.hour) ∧
      (∃ row ∈ vehicleOf df, row.pickup_zone = r.pickup_zone ∧
        row.vehicle_type = r.vehicle_type) ∧
      (∃ row ∈ surgeOf df, row.pickup_zone = r.pickup_zone ∧ row.hour = r.hour) := by
  intro r hr
  have hdow : toCat r.day_of_week = r.day_of_week := by
    rcases record_day_shape h r hr with ⟨h1, _⟩ | ⟨⟨d, hd, h1⟩, _⟩
    · rw [h1]
      rfl
    · rw [h1]
      simp [toCat, hd]
  exact ⟨⟨hourlyRowOf df (hourlyKey r),
      mem_hourlyOf.mpr ⟨_, mem_uniqueKeys.mpr (List.mem_map_of_mem _ hr), rfl⟩, rfl, rfl⟩,
    ⟨zonalRowOf df (zonalKey r),
      mem_zonalOf.mpr ⟨_, mem_uniqueKeys.mpr (List.mem_map_of_mem _ hr), rfl⟩, rfl⟩,
    ⟨peakRowOf df (peakKey r),
      mem_peakOf.mpr ⟨_, mem_uniqueKeys.mpr (List.mem_map_of_mem _ hr), rfl⟩, hdow, rfl⟩,
    ⟨vehicleRowOf df (vehicleKey r),
      mem_vehicleOf.mpr ⟨_, mem_uniqueKeys.mpr (List.mem_map_of_mem _ hr), rfl⟩, rfl, rfl⟩,
    ⟨surgeRowOf df (surgeKey r),
      mem_surgeOf.mpr ⟨_, mem_uniqueKeys.mpr (List.mem_map_of_mem _ hr), rfl⟩, rfl, rfl⟩⟩

/-- Witness for C7: the missing-pickup-zone record of `c6Df` has its own
missing-key row in the zonal table. -/
theorem C7_witness :
    ∃ row ∈ zonalOf c6Df,
      row.pickup_zone
        = (enrich (mkRow (.text "a") (some ⟨0, 9⟩) none (some "x") true)).pickup_zone := by
  have hmem : enrich (mkRow (.text "a") (some ⟨0, 9⟩) none (some "x") true) ∈ c6Df :=
    List.mem_cons_self _ _
  exact ((@C7_missing_groups c6Csv c6Df (by rfl)) _ hmem).2.1

/-- Counterexample to C3 as stated: a source missing the `timestamp` column —
one of the ten required names — fails inside the reader's `parse_dates`
handling, not with the schema-validation error naming the missing column;
the timestamp coercion runs before the schema check. -/
theorem C3_counterexample :
    loadResult c3Csv = .error (.parseDatesMissing "timestamp") ∧
    loadResult c3Csv ≠ .error (.schemaValidation ["timestamp"]) := by
  constructor
  · rfl
  · intro hcon
    rw [show loadResult c3Csv = .error (.parseDatesMissing "timestamp") from rfl] at hcon
    exact LoadError.noConfusion (Except.error.inj hcon)

/-- C3 (amended): when `timestamp` is present and other required columns are
missing, loading fails with the schema-validation error naming exactly the
missing columns, before reading any row data (the outcome does not depend on
the rows); when `timestamp` itself is absent, loading fails earlier inside
the reader's date parsing. -/
theorem C3_schema_check (csv : Csv) :
    ("timestamp" ∉ csv.header →
      loadResult csv = .error (.parseDatesMissing "timestamp")) ∧
    ("timestamp" ∈ csv.header →
      REQUIRED.filter (fun c => ¬ c ∈ csv.header) ≠ [] →
      loadResult csv
        = .error (.schemaValidation (REQUIRED.filter (fun c => ¬ c ∈ csv.header)))) ∧
    (∀ rows', REQUIRED.filter (fun c => ¬ c ∈ csv.header) ≠ [] →
      loadResult { header := csv.header, rows := rows' } = loadResult csv) := by
  have herr : ∀ c2 : Csv, c2.header = csv.header →
      REQUIRED.filter (fun c => ¬ c ∈ csv.header) ≠ [] →
      ("timestamp" ∈ csv.header →
        loadResult c2
          = .error (.schemaValidation (REQUIRED.filter (fun c => ¬ c ∈ csv.header)))) ∧
      ("timestamp" ∉ csv.header →
        loadResult c2 = .error (.parseDatesMissing "timestamp")) := by
    intro c2 hh hmiss
    constructor
    · intro hts
      unfold loadResult
      rw [hh, if_pos hts]
      rcases hf : REQUIRED.filter (fun c => ¬ c ∈ csv.header) with _ | ⟨c, cs⟩
      · exact absurd hf hmiss
      · rfl
    · intro hts
      unfold loadResult
      rw [hh, if_neg hts]
  refine ⟨?_, ?_, ?_⟩
  · intro hts
    unfold loadResult
    rw [if_neg hts]
  · intro hts hmiss
    exact (herr csv rfl hmiss).1 hts
  · intro rows' hmiss
    by_cases hts : "timestamp" ∈ csv.header
    · rw [(herr { header := csv.header, rows := rows' } rfl hmiss).1 hts,
        (herr csv rfl hmiss).1 hts]
    · rw [(herr { header := csv.header, rows := rows' } rfl hmiss).2 hts,
        (herr csv rfl hmiss).2 hts]

/-- Witness for C3 (amended) at the source missing only `fare`: the error
names exactly `fare`. -/
theorem C3_witness :
    loadResult c3wCsv = .error (.schemaValidation ["fare"]) := by
  have h := (C3_schema_check c3wCsv).2.1 (by decide) (by decide)
  rw [h]
  have hf : REQUIRED.filter (fun c => ¬ c ∈ c3wCsv.header) = ["fare"] := by decide
  rw [hf]

theorem cast_sum_map {α : Type} (l : List α) (f : α → ℕ) :
    (l.map (fun x => ((f x : ℚ)))).sum = (((l.map f).sum : ℕ) : ℚ) := by
  induction l with
  | nil => simp
  | cons x xs ih => simp [ih]

/-- Counterexample to C6 as stated: in the dataset loaded from `c6Csv` both
records' `pickup_zone` is missing; the vehicle transform's inner
`groupby('pickup_zone')` (line 172) uses the default `dropna=True`, so those
rows get a missing `zone_vehicle_share`, and the shares of the missing-zone
group sum to 0, not 1 — even though that group's `total_rides` denominator
is 2, not 0. -/
theorem C6_counterexample :
    loadResult c6Csv = .ok c6Df ∧
    c6Df ≠ [] ∧
    zoneDen c6Df none = 2 ∧
    (((vehicleOf c6Df).filter (fun row => row.pickup_zone = none)).map
        (fun row => finPart row.zone_vehicle_share)).sum = 0 ∧
    (0 : ℚ) ≠ 1 := by
  refine ⟨by rfl, by decide, by decide, ?_, by norm_num⟩
  have h1 : (vehicleOf c6Df).filter (fun row => row.pickup_zone = none)
      = [vehicleRowOf c6Df ((none : Option String), some "x")] := by rfl
  rw [h1]
  have h2 : (vehicleRowOf c6Df ((none : Option String), some "x")).zone_vehicle_share
      = FloatVal.nan := rfl
  simp [h2, finPart]

/-- C6 (amended): `ride_share` over all Zonal rows and `share_of_week` over
all Peak-hours rows sum to exactly 1 whenever the grand total is nonzero;
`zone_vehicle_share` over the rows of each present (non-missing) pickup zone
sums to exactly 1 whenever that zone's total is nonzero.  Rows of a missing
pickup zone carry a missing share instead (see the counterexample). -/
theorem C6_shares_sum_to_one (df : List Record) :
    (zonalGrand df ≠ 0 →
      ((zonalOf df).map (fun row => finPart row.ride_share)).sum = 1) ∧
    (peakGrand df ≠ 0 →
      ((peakOf df).map (fun row => finPart row.share_of_week)).sum = 1) ∧
    (∀ z : String, zoneDen df (some z) ≠ 0 →
      (((vehicleOf df).filter (fun row => row.pickup_zone = some z)).map
          (fun row => finPart row.zone_vehicle_share)).sum = 1) := by
  refine ⟨?_, ?_, ?_⟩
  · intro hD
    have hDQ : ((zonalGrand df : ℚ)) ≠ 0 := Nat.cast_ne_zero.mpr hD
    have hperm := (sortBy_perm zonalLe
      ((uniqueKeys (df.map zonalKey)).map (zonalRowOf df))).map
      (fun row => finPart row.ride_share)
    unfold zonalOf
    rw [hperm.sum_eq, List.map_map]
    have hcongr : (uniqueKeys (df.map zonalKey)).map
          ((fun row => finPart row.ride_share) ∘ zonalRowOf df)
        = (uniqueKeys (df.map zonalKey)).map
          (fun k => ((countRideId (groupRows df zonalKey k) : ℚ)
            / (zonalGrand df : ℚ))) := by
      apply List.map_congr_left
      intro k hk
      show finPart (zonalRowOf df k).ride_share = _
      have hs : (zonalRowOf df k).ride_share
          = fdiv (countRideId (groupRows df zonalKey k) : ℚ) (zonalGrand df : ℚ) := rfl
      rw [hs]
      unfold fdiv
      rw [if_neg hDQ]
      rfl
    rw [hcongr, sum_map_div, cast_sum_map]
    have hg : ((uniqueKeys (df.map zonalKey)).map
        (fun k => countRideId (groupRows df zonalKey k))).sum = zonalGrand df := rfl
    rw [hg, div_self hDQ]
  · intro hD
    have hDQ : ((peakGrand df : ℚ)) ≠ 0 := Nat.cast_ne_zero.mpr hD
    have hperm := (sortBy_perm peakLe
      ((uniqueKeys (df.map peakKey)).map (peakRowOf df))).map
      (fun row => finPart row.share_of_week)
    unfold peakOf
    rw [hperm.sum_eq, List.map_map]
    have hcongr : (uniqueKeys (df.map peakKey)).map
          ((fun row => finPart row.share_of_week) ∘ peakRowOf df)
        = (uniqueKeys (df.map peakKey)).map
          (fun k => ((countRideId (groupRows df peakKey k) : ℚ)
            / (peakGrand df : ℚ))) := by
      apply List.map_congr_left
      intro k hk
      show finPart (peakRowOf df k).share_of_week = _
      have hs : (peakRowOf df k).share_of_week
          = fdiv (countRideId (groupRows df peakKey k) : ℚ) (peakGrand df : ℚ) := rfl
      rw [hs]
      unfold fdiv
      rw [if_neg hDQ]
      rfl
    rw [hcongr, sum_map_div, cast_sum_map]
    have hg : ((uniqueKeys (df.map peakKey)).map
        (fun k => countRideId (groupRows df peakKey k))).sum = peakGrand df := rfl
    rw [hg, div_self hDQ]
  · intro z hz
    have hDQ : ((zoneDen df (some z) : ℚ)) ≠ 0 := Nat.cast_ne_zero.mpr hz
    have hperm := ((sortBy_perm vehicleLe
      ((uniqueKeys (df.map vehicleKey)).map (vehicleRowOf df))).filter
      (fun row => row.pickup_zone = some z)).map
      (fun row => finPart row.zone_vehicle_share)
    unfold vehicleOf
    rw [hperm.sum_eq, List.filter_map, List.map_map]
    have hfil : (uniqueKeys (df.map vehicleKey)).filter
          ((fun row => decide (row.pickup_zone = some z)) ∘ vehicleRowOf df)
        = (uniqueKeys (df.map vehicleKey)).filter (fun k => k.1 = some z) := by
      apply List.filter_congr
      intro k hk
      rfl
    rw [hfil]
    have hcongr : ((uniqueKeys (df.map vehicleKey)).filter
          (fun k => k.1 = some z)).map
          ((fun row => finPart row.zone_vehicle_share) ∘ vehicleRowOf df)
        = ((uniqueKeys (df.map vehicleKey)).filter
          (fun k => k.1 = some z)).map
          (fun k => ((countRideId (groupRows df vehicleKey k) : ℚ)
            / (zoneDen df (some z) : ℚ))) := by
      apply List.map_congr_left
      intro k hk
      have hk1 : k.1 = some z := by
        have hmem := (List.mem_filter.mp hk).2
        simpa using hmem
      show finPart (vehicleRowOf df k).zone_vehicle_share = _
      have hs : (vehicleRowOf df k).zone_vehicle_share
          = fdiv (countRideId (groupRows df vehicleKey k) : ℚ) (zoneDen df k.1 : ℚ) := by
        show (match k.1 with
          | none => FloatVal.nan
          | some _ =>
            fdiv (countRideId (groupRows df vehicleKey k) : ℚ) (zoneDen df k.1 : ℚ)) = _
        rw [hk1]
      rw [hs, hk1]
      unfold fdiv
      rw [if_neg hDQ]
      rfl
    rw [hcongr, sum_map_div, cast_sum_map]
    have hg : (((uniqueKeys (df.map vehicleKey)).filter (fun k => k.1 = some z)).map
        (fun k => countRideId (groupRows df vehicleKey k))).sum
        = zoneDen df (some z) := rfl
    rw [hg, div_self hDQ]

/-- Witness for C6 at the loaded one-ride dataset: all three share sums are
1 with nonzero denominators. -/
theorem C6_witness :
    ((zonalOf wDf1).map (fun row => finPart row.ride_share)).sum = 1 ∧
    ((peakOf wDf1).map (fun row => finPart row.share_of_week)).sum = 1 ∧
    (((vehicleOf wDf1).filter (fun row => row.pickup_zone = some "A")).map
        (fun row => finPart row.zone_vehicle_share)).sum = 1 :=
  ⟨(C6_shares_sum_to_one wDf1).1 (by decide),
   (C6_shares_sum_to_one wDf1).2.1 (by decide),
   (C6_shares_sum_to_one wDf1).2.2 "A" (by decide)⟩

theorem lexLe_nat_trans : ∀ p q r : ℕ × ℕ,
    lexLe ble ble p q = true → lexLe ble ble q r = true →
    lexLe ble ble p r = true := by
  intro p q r h1 h2
  unfold lexLe ble at *
  split_ifs at * <;> simp only [decide_eq_true_eq] at * <;> omega

theorem lexLe_nat_total : ∀ p q : ℕ × ℕ,
    lexLe ble ble p q = true ∨ lexLe ble ble q p = true := by
  intro p q
  unfold lexLe ble
  split_ifs <;> simp only [decide_eq_true_eq] <;> omega

theorem peakLe_trans : ∀ a b c : PeakRow,
    peakLe a b = true → peakLe b c = true → peakLe a c = true :=
  fun _ _ _ h1 h2 => lexLe_nat_trans _ _ _ h1 h2

theorem peakLe_total : ∀ a b : PeakRow, peakLe a b = true ∨ peakLe b a = true :=
  fun _ _ => lexLe_nat_total _ _

theorem peakOf_pairwise (df : List Record) :
    (peakOf df).Pairwise (fun a b => peakLe a b = true) := by
  unfold peakOf
  exact pairwise_sortBy peakLe_trans peakLe_total _

theorem peak_key_valid {csv : Csv} {df : List Record} (h : loadResult csv = .ok df) :
    ∀ k ∈ uniqueKeys (df.map peakKey),
      toCat k.1 = k.1 ∧ (k.1 ≠ none → k.2 ≠ none) := by
  intro k hk
  rcases List.mem_map.mp (mem_uniqueKeys.mp hk) with ⟨r, hr, rfl⟩
  rcases record_day_shape h r hr with ⟨h1, _⟩ | ⟨⟨d, hd, h1⟩, ⟨hn, h2⟩⟩
  · constructor
    · show toCat r.day_of_week = r.day_of_week
      rw [h1]
      rfl
    · intro hne
      exact absurd h1 hne
  · constructor
    · show toCat r.day_of_week = r.day_of_week
      rw [h1]
      simp [toCat, hd]
    · intro _
      show r.hour ≠ none
      rw [h2]
      simp

theorem peakOf_keys_nodup {csv : Csv} {df : List Record}
    (h : loadResult csv = .ok df) :
    ((peakOf df).map (fun row => (row.day_of_week, row.hour))).Nodup := by
  have hperm : ((peakOf df).map (fun row => (row.day_of_week, row.hour))).Perm
      (((uniqueKeys (df.map peakKey)).map (peakRowOf df)).map
        (fun row => (row.day_of_week, row.hour))) := by
    unfold peakOf
    exact (sortBy_perm _ _).map _
  rw [hperm.nodup_iff, List.map_map]
  have hre : (uniqueKeys (df.map peakKey)).map
        ((fun row => (row.day_of_week, row.hour)) ∘ peakRowOf df)
      = (uniqueKeys (df.map peakKey)).map id := by
    apply List.map_congr_left
    intro k hk
    show (toCat k.1, k.2) = k
    rw [(peak_key_valid h k hk).1]
  rw [hre, List.map_id]
  exact nodup_uniqueKeys _

theorem peakOf_row_shape {csv : Csv} {df : List Record}
    (h : loadResult csv = .ok df) :
    ∀ row ∈ peakOf df,
      (∀ d, row.day_of_week = some d → d ∈ day_order) ∧
      (row.day_of_week ≠ none → row.hour ≠ none) := by
  intro row hrow
  rcases mem_peakOf.mp hrow with ⟨k, hk, rfl⟩
  rcases peak_key_valid h k hk with ⟨hcat, himp⟩
  constructor
  · intro d hd
    have hsome : toCat k.1 = some d := hd
    cases hk1 : k.1 with
    | none =>
      rw [hk1] at hsome
      exact absurd hsome (by simp [toCat])
    | some s =>
      rw [hk1] at hsome
      simp only [toCat] at hsome
      split_ifs at hsome with hs
      cases hsome
      exact hs
  · intro hne
    have hk1 : k.1 ≠ none := by
      intro hno
      apply hne
      show toCat k.1 = none
      rw [hno]
      rfl
    exact himp hk1

/-- C5: for every loaded dataset, whenever two Peak-hours rows with realized
weekday names appear at positions `i < j`, the earlier row's day strictly
precedes the later one's in the fixed Monday…Sunday calendar sequence, or
the days are equal and the hour strictly increases — regardless of the order
of weekday strings in the source. -/
theorem C5_peak_calendar_order {csv : Csv} {df : List Record}
    (h : loadResult csv = .ok df) :
    ∀ i j : ℕ, ∀ hi : i < (peakOf df).length, ∀ hj : j < (peakOf df).length,
      i < j → ∀ di dj : String, ∀ hri hrj : ℕ,
      ((peakOf df).get ⟨i, hi⟩).day_of_week = some di →
      ((peakOf df).get ⟨j, hj⟩).day_of_week = some dj →
      ((peakOf df).get ⟨i, hi⟩).hour = some hri →
      ((peakOf df).get ⟨j, hj⟩).hour = some hrj →
      day_order.indexOf di < day_order.indexOf dj ∨ (di = dj ∧ hri < hrj) := by
  intro i j hi hj hij di dj hri hrj hdi hdj hhi hhj
  have hle : peakLe ((peakOf df).get ⟨i, hi⟩) ((peakOf df).get ⟨j, hj⟩) = true :=
    List.pairwise_iff_get.mp (peakOf_pairwise df) ⟨i, hi⟩ ⟨j, hj⟩ hij
  have hdimem : di ∈ day_order :=
    (peakOf_row_shape h _ (List.get_mem _ _ _)).1 di hdi
  have hdjmem : dj ∈ day_order :=
    (peakOf_row_shape h _ (List.get_mem _ _ _)).1 dj hdj
  have hmli : i < ((peakOf df).map (fun row => (row.day_of_week, row.hour))).length := by
    rw [List.length_map]
    exact hi
  have hmlj : j < ((peakOf df).map (fun row => (row.day_of_week, row.hour))).length := by
    rw [List.length_map]
    exact hj
  have hneq : (((peakOf df).get ⟨i, hi⟩).day_of_week, ((peakOf df).get ⟨i, hi⟩).hour)
      ≠ (((peakOf df).get ⟨j, hj⟩).day_of_week, ((peakOf df).get ⟨j, hj⟩).hour) := by
    intro hcon
    have hget : ((peakOf df).map (fun row => (row.day_of_week, row.hour))).get ⟨i, hmli⟩
        = ((peakOf df).map (fun row => (row.day_of_week, row.hour))).get ⟨j, hmlj⟩ := by
      rw [List.get_map, List.get_map]
      exact hcon
    have hfin := (peakOf_keys_nodup h).get_inj_iff.mp hget
    have : i = j := by injection hfin
    omega
  unfold peakLe lexLe at hle
  rw [hdi, hdj, hhi, hhj] at hle
  simp only [sortIdx, hourVal] at hle
  by_cases heq : day_order.indexOf di = day_order.indexOf dj
  · right
    have hdeq : di = dj := (List.indexOf_inj hdimem hdjmem).mp heq
    refine ⟨hdeq, ?_⟩
    rw [if_pos heq] at hle
    have hlehr : hri ≤ hrj := by
      simpa [ble, decide_eq_true_eq] using hle
    have hhne : hri ≠ hrj := by
      intro hcon2
      apply hneq
      rw [hdi, hdj, hhi, hhj, hdeq, hcon2]
    omega
  · left
    rw [if_neg heq] at hle
    have hd : day_order.indexOf di ≤ day_order.indexOf dj := by
      simpa [ble, decide_eq_true_eq] using hle
    omega

/-- Witness for C5 at a source listing a Tuesday ride before a Monday ride:
in the output the Monday row precedes the Tuesday row. -/
theorem C5_witness :
    day_order.indexOf "Monday" < day_order.indexOf "Tuesday"
      ∨ ("Monday" = "Tuesday" ∧ 9 < 9) :=
  @C5_peak_calendar_order w5Csv w5Df (by rfl) 0 1
    (by decide) (by decide) (by decide) "Monday" "Tuesday" 9 9
    (by decide) (by decide) (by decide) (by decide)

end RideGen
